import Mathlib

/-!
# Fee-delegated legacy transaction envelope (`core/types/feedelegate_legacy_tx.go`)

A shallow embedding of `FeeDelegateLegacyTx` and of the Go heap its fields point
into.  The struct holds pointers (`*big.Int`, `*common.Address`) and a byte slice,
so the embedding keeps an explicit heap: every claim about copies and aliasing is
a statement about which heap cells an envelope can reach.

* `*big.Int` and `*common.Address` are `Option Nat` (`none` is `nil`), an address
  into the corresponding store of the heap;
* `[]byte` is `Option Slice` (`none` is the nil slice), a base pointer and a length
  into a byte memory;
* `uint64` fields are `Nat` (the file does no arithmetic on them);
* allocation takes the next free cell of a store (`nInts`, `nAddrs`, `nBytes`);
* a method that dereferences `nil` panics: it returns `none`.
-/

namespace FeeDelegate

/-! ## The heap -/

/-- A byte slice header: base pointer into the byte memory and length. -/
structure Slice where
  ptr : Nat
  len : Nat
  deriving DecidableEq, Repr

/-- The Go heap restricted to the three kinds of object the file touches: `big.Int`
numbers, `common.Address` values (the 20 bytes read as one number) and bytes.
Cells below the `n…` counters are allocated, the others are free. -/
structure Heap where
  ints : Nat → Int
  nInts : Nat
  addrs : Nat → Nat
  nAddrs : Nat
  bytes : Nat → Nat
  nBytes : Nat

/-- The empty heap. -/
def Heap.empty : Heap :=
  { ints := fun _ => 0, nInts := 0, addrs := fun _ => 0, nAddrs := 0,
    bytes := fun _ => 0, nBytes := 0 }

/-- Store `v` in the `big.Int` cell `p`. -/
def Heap.setInt (h : Heap) (p : Nat) (v : Int) : Heap :=
  { h with ints := fun q => if q = p then v else h.ints q }

/-- Store `a` in the `common.Address` cell `p`. -/
def Heap.setAddr (h : Heap) (p : Nat) (a : Nat) : Heap :=
  { h with addrs := fun q => if q = p then a else h.addrs q }

/-- Store the byte `b` at byte address `p`. -/
def Heap.setByte (h : Heap) (p : Nat) (b : Nat) : Heap :=
  { h with bytes := fun q => if q = p then b % 256 else h.bytes q }

/-- Go `new(big.Int)`: a fresh number, zero. -/
def newInt (h : Heap) : Heap × Option Nat :=
  ({ h with ints := fun q => if q = h.nInts then 0 else h.ints q, nInts := h.nInts + 1 },
    some h.nInts)

/-- Method `z.Set(x)` of `math/big`: store the value of `x` in `z`.  Either pointer being
`nil` is a nil dereference. -/
def bigSet (h : Heap) (z x : Option Nat) : Option Heap :=
  match z, x with
  | some z, some x => some (h.setInt z (h.ints x))
  | _, _ => none

/-- The statement `if x != nil { z.Set(x) }`, which `copy` and `copyLegacyTx` run
once for each number they copy. -/
def setIfPresent (h : Heap) (z x : Option Nat) : Option Heap :=
  if x ≠ none then bigSet h z x else some h

/-- The contents of a slice. -/
def Heap.readSlice (h : Heap) (s : Slice) : List Nat :=
  (List.range s.len).map fun i => h.bytes (s.ptr + i)

/-! ## Data model -/

/-- Struct `LegacyTx`, as far as the file uses it: the fields `SetSenderTx` and
`copyLegacyTx` assign. -/
structure LegacyTx where
  Nonce : Nat
  GasPrice : Option Nat
  Gas : Nat
  To : Option Nat
  Value : Option Nat
  Data : Option Slice
  V : Option Nat
  R : Option Nat
  S : Option Nat
  deriving DecidableEq, Repr

/-- Struct `FeeDelegateLegacyTx` (lines 27-36). -/
structure FeeDelegateLegacyTx where
  SenderTx : LegacyTx
  MaxFeeLimit : Option Nat
  FeePayer : Option Nat
  FV : Option Nat
  FR : Option Nat
  FS : Option Nat
  deriving DecidableEq, Repr

/-! ## Helpers of the package that live outside the file -/

/-- Modelled from the spec: `copyAddressPtr` is missing from the sources; the spec
asks for "an independently-owned copy of the address (or absent)": `nil` for `nil`,
otherwise a fresh address cell holding the same value. -/
def copyAddressPtr (h : Heap) (a : Option Nat) : Heap × Option Nat :=
  match a with
  | none => (h, none)
  | some p =>
    ({ h with addrs := fun q => if q = h.nAddrs then h.addrs p else h.addrs q,
              nAddrs := h.nAddrs + 1 }, some h.nAddrs)

/-- Modelled from the spec: `common.CopyBytes` is missing from the sources; the spec
calls the payload "owned, independently copyable": the nil slice for the nil slice,
otherwise a fresh slice of the same length with the same bytes. -/
def CopyBytes (h : Heap) (b : Option Slice) : Heap × Option Slice :=
  match b with
  | none => (h, none)
  | some s =>
    ({ h with bytes := fun q => if h.nBytes ≤ q ∧ q < h.nBytes + s.len
                                then h.bytes (s.ptr + (q - h.nBytes)) else h.bytes q,
              nBytes := h.nBytes + s.len }, some ⟨h.nBytes, s.len⟩)

namespace LegacyTx

/-- Modelled from the spec: the accessors of `LegacyTx` are missing from the
sources; the spec says the inner transaction "exposes read accessors for every
field": `nonce()` reads `Nonce`. -/
def nonce (tx : LegacyTx) : Nat := tx.Nonce

/-- Modelled from the spec: missing accessor `to()`, reads `To` (`to` is reserved
in Lean, hence the underscore). -/
def to_ (tx : LegacyTx) : Option Nat := tx.To

/-- Modelled from the spec: missing accessor `data()`, reads `Data`. -/
def data (tx : LegacyTx) : Option Slice := tx.Data

/-- Modelled from the spec: missing accessor `gas()`, reads `Gas`. -/
def gas (tx : LegacyTx) : Nat := tx.Gas

/-- Modelled from the spec: missing accessor `value()`, reads `Value`. -/
def value (tx : LegacyTx) : Option Nat := tx.Value

/-- Modelled from the spec: missing accessor `gasPrice()`, reads `GasPrice`. -/
def gasPrice (tx : LegacyTx) : Option Nat := tx.GasPrice

/-- Modelled from the spec: missing accessor `rawSignatureValues()`, reads the
sender triple `(V, R, S)`. -/
def rawSignatureValues (tx : LegacyTx) : Option Nat × Option Nat × Option Nat :=
  (tx.V, tx.R, tx.S)

end LegacyTx

/-- The accessors of `LegacyTx` that are not field readers and on which neither the
sources nor the spec say what they compute (`chainID()`, `accessList()`,
`gasFeeCap()`, `gasTipCap()`): parameters of the development.  `χ` and `α` are the
result types of `chainID()` and `accessList()`. -/
structure InnerOps (χ α : Type) where
  chainID : Heap → LegacyTx → χ
  accessList : Heap → LegacyTx → α
  gasFeeCap : Heap → LegacyTx → Option Nat
  gasTipCap : Heap → LegacyTx → Option Nat

/-! ## The methods of `FeeDelegateLegacyTx` -/

namespace FeeDelegateLegacyTx

/-- Method `SetSenderTx` (lines 42-53): nine assignments of what the accessors of
`senderTx` return. -/
def SetSenderTx (tx : FeeDelegateLegacyTx) (senderTx : LegacyTx) : FeeDelegateLegacyTx :=
  let tx := { tx with SenderTx := { tx.SenderTx with Nonce := senderTx.nonce } }
  let tx := { tx with SenderTx := { tx.SenderTx with To := senderTx.to_ } }
  let tx := { tx with SenderTx := { tx.SenderTx with Data := senderTx.data } }
  let tx := { tx with SenderTx := { tx.SenderTx with Gas := senderTx.gas } }
  let tx := { tx with SenderTx := { tx.SenderTx with Value := senderTx.value } }
  let tx := { tx with SenderTx := { tx.SenderTx with GasPrice := senderTx.gasPrice } }
  let (v, r, s) := senderTx.rawSignatureValues
  let tx := { tx with SenderTx := { tx.SenderTx with V := v } }
  let tx := { tx with SenderTx := { tx.SenderTx with R := r } }
  { tx with SenderTx := { tx.SenderTx with S := s } }

/-- Method `copyLegacyTx` (lines 83-112): the composite literal, then the five guarded
`Set` calls. -/
def copyLegacyTx (h : Heap) (tx : FeeDelegateLegacyTx) : Option (Heap × LegacyTx) := do
  let (h, to_) := copyAddressPtr h tx.SenderTx.To
  let (h, data) := CopyBytes h tx.SenderTx.Data
  let (h, value) := newInt h
  let (h, gasPrice) := newInt h
  let (h, v) := newInt h
  let (h, r) := newInt h
  let (h, s) := newInt h
  let cpy : LegacyTx :=
    { Nonce := tx.SenderTx.Nonce, To := to_, Data := data, Gas := tx.SenderTx.Gas,
      Value := value, GasPrice := gasPrice, V := v, R := r, S := s }
  let h ← setIfPresent h cpy.Value tx.SenderTx.Value
  let h ← setIfPresent h cpy.GasPrice tx.SenderTx.GasPrice
  let h ← setIfPresent h cpy.V tx.SenderTx.V
  let h ← setIfPresent h cpy.R tx.SenderTx.R
  let h ← setIfPresent h cpy.S tx.SenderTx.S
  pure (h, cpy)

/-- Method `copy` (lines 60-81): the composite literal, then the three guarded `Set`
calls.  `MaxFeeLimit` is assigned the pointer of the receiver. -/
def copy (h : Heap) (tx : FeeDelegateLegacyTx) : Option (Heap × FeeDelegateLegacyTx) := do
  let (h, senderTx) ← copyLegacyTx h tx
  let (h, feePayer) := copyAddressPtr h tx.FeePayer
  let (h, fv) := newInt h
  let (h, fr) := newInt h
  let (h, fs) := newInt h
  let cpy : FeeDelegateLegacyTx :=
    { SenderTx := senderTx, MaxFeeLimit := tx.MaxFeeLimit, FeePayer := feePayer,
      FV := fv, FR := fr, FS := fs }
  let h ← setIfPresent h cpy.FV tx.FV
  let h ← setIfPresent h cpy.FR tx.FR
  let h ← setIfPresent h cpy.FS tx.FS
  pure (h, cpy)

/-- Method `chainID` (line 116). -/
def chainID {χ α : Type} (ops : InnerOps χ α) (h : Heap) (tx : FeeDelegateLegacyTx) : χ :=
  ops.chainID h tx.SenderTx

/-- Method `accessList` (line 117). -/
def accessList {χ α : Type} (ops : InnerOps χ α) (h : Heap) (tx : FeeDelegateLegacyTx) : α :=
  ops.accessList h tx.SenderTx

/-- Method `data` (line 118). -/
def data (tx : FeeDelegateLegacyTx) : Option Slice := tx.SenderTx.data

/-- Method `gas` (line 119). -/
def gas (tx : FeeDelegateLegacyTx) : Nat := tx.SenderTx.gas

/-- Method `gasFeeCap` (line 120). -/
def gasFeeCap {χ α : Type} (ops : InnerOps χ α) (h : Heap) (tx : FeeDelegateLegacyTx) :
    Option Nat :=
  ops.gasFeeCap h tx.SenderTx

/-- Method `gasTipCap` (line 121): calls `gasPrice()` of the inner transaction. -/
def gasTipCap (tx : FeeDelegateLegacyTx) : Option Nat := tx.SenderTx.gasPrice

/-- Method `gasPrice` (line 122). -/
def gasPrice (tx : FeeDelegateLegacyTx) : Option Nat := tx.SenderTx.gasPrice

/-- Method `value` (line 123). -/
def value (tx : FeeDelegateLegacyTx) : Option Nat := tx.SenderTx.value

/-- Method `nonce` (line 124). -/
def nonce (tx : FeeDelegateLegacyTx) : Nat := tx.SenderTx.nonce

/-- Method `to` (line 125). -/
def to_ (tx : FeeDelegateLegacyTx) : Option Nat := tx.SenderTx.to_

/-- Method `maxfeelimit` (line 126). -/
def maxfeelimit (tx : FeeDelegateLegacyTx) : Option Nat := tx.MaxFeeLimit

/-- Method `feePayer` (line 127). -/
def feePayer (tx : FeeDelegateLegacyTx) : Option Nat := tx.FeePayer

/-- Method `rawFeePayerSignatureValues` (lines 128-130). -/
def rawFeePayerSignatureValues (tx : FeeDelegateLegacyTx) :
    Option Nat × Option Nat × Option Nat :=
  (tx.FV, tx.FR, tx.FS)

/-- Method `rawSignatureValues` (lines 132-134). -/
def rawSignatureValues (tx : FeeDelegateLegacyTx) : Option Nat × Option Nat × Option Nat :=
  tx.SenderTx.rawSignatureValues

/-- Method `setSignatureValues` (lines 136-138): `chainID` is not used. -/
def setSignatureValues (tx : FeeDelegateLegacyTx) (_chainID v r s : Option Nat) :
    FeeDelegateLegacyTx :=
  { tx with FV := v, FR := r, FS := s }

end FeeDelegateLegacyTx

/-! ## Type tag and sender-transaction getter -/

/-- Modelled from the spec: the constants `LegacyTxType` and
`FeeDelegateLegacyTxType` are missing from the sources.  The spec says the envelope
"reports a fixed, distinct transaction-type tag distinguishing it from the plain
inner-transaction shape": two byte constants, known to differ, of unknown value. -/
structure TypeTags where
  LegacyTxType : Nat
  FeeDelegateLegacyTxType : Nat
  distinct : FeeDelegateLegacyTxType ≠ LegacyTxType

/-- Modelled from the spec: the accessor `txType()` of `LegacyTx` is missing from the
sources; the plain inner-transaction shape reports its own constant tag. -/
def LegacyTx.txType (tags : TypeTags) (_tx : LegacyTx) : Nat := tags.LegacyTxType

/-- Method `txType` (line 115). -/
def FeeDelegateLegacyTx.txType (tags : TypeTags) (_tx : FeeDelegateLegacyTx) : Nat :=
  tags.FeeDelegateLegacyTxType

/-- Interface `TxData`, as far as the file needs it: a value is one of the
transaction shapes; the nil interface is `none` of `Option TxData`. -/
inductive TxData where
  | legacyTx (tx : LegacyTx)
  | feeDelegateLegacyTx (tx : FeeDelegateLegacyTx)
  deriving DecidableEq, Repr

/-- Method `getSenderTx` (lines 38-40): `return nil`. -/
def FeeDelegateLegacyTx.getSenderTx (_tx : FeeDelegateLegacyTx) : Option TxData := none

/-! ## Observing an envelope

What a caller can see of a transaction in a given heap: the scalar fields, and for
each pointer whether it is `nil` and otherwise the value it points to. -/

/-- The value behind a `*big.Int`. -/
def Heap.int (h : Heap) (p : Option Nat) : Option Int := p.map h.ints

/-- The value behind a `*common.Address`. -/
def Heap.addr (h : Heap) (p : Option Nat) : Option Nat := p.map h.addrs

/-- The bytes of a `[]byte`. -/
def Heap.slice (h : Heap) (s : Option Slice) : Option (List Nat) := s.map h.readSlice

/-- The values of a signature triple. -/
def Heap.triple (h : Heap) (t : Option Nat × Option Nat × Option Nat) :
    Option Int × Option Int × Option Int :=
  (h.int t.1, h.int t.2.1, h.int t.2.2)

/-- The observable content of a `LegacyTx`. -/
structure LegacyView where
  Nonce : Nat
  GasPrice : Option Int
  Gas : Nat
  To : Option Nat
  Value : Option Int
  Data : Option (List Nat)
  V : Option Int
  R : Option Int
  S : Option Int
  deriving DecidableEq, Repr

/-- The observable content of a `FeeDelegateLegacyTx`. -/
structure TxView where
  SenderTx : LegacyView
  MaxFeeLimit : Option Int
  FeePayer : Option Nat
  FV : Option Int
  FR : Option Int
  FS : Option Int
  deriving DecidableEq, Repr

/-- Observe a `LegacyTx` in heap `h`. -/
def Heap.viewLegacy (h : Heap) (tx : LegacyTx) : LegacyView :=
  { Nonce := tx.Nonce, GasPrice := h.int tx.GasPrice, Gas := tx.Gas, To := h.addr tx.To,
    Value := h.int tx.Value, Data := h.slice tx.Data, V := h.int tx.V, R := h.int tx.R,
    S := h.int tx.S }

/-- Observe an envelope in heap `h`. -/
def Heap.view (h : Heap) (tx : FeeDelegateLegacyTx) : TxView :=
  { SenderTx := h.viewLegacy tx.SenderTx, MaxFeeLimit := h.int tx.MaxFeeLimit,
    FeePayer := h.addr tx.FeePayer, FV := h.int tx.FV, FR := h.int tx.FR, FS := h.int tx.FS }

/-! ## Well-formed pointers

Go has no dangling pointers: whatever a transaction points to has been allocated. -/

/-- A pointer is `nil` or below the allocation counter `n`. -/
def PtrOk (n : Nat) (p : Option Nat) : Prop := ∀ q, p = some q → q < n

/-- A slice is nil or lies below the allocation counter `n`. -/
def SliceOk (n : Nat) (d : Option Slice) : Prop := ∀ s, d = some s → s.ptr + s.len ≤ n

instance instDecidablePtrOk (n : Nat) (p : Option Nat) : Decidable (PtrOk n p) :=
  match p with
  | none => isTrue (fun _ hq => Option.noConfusion hq)
  | some q =>
    if hlt : q < n then isTrue (fun _ hq => Option.some.inj hq ▸ hlt)
    else isFalse (fun hall => hlt (hall q rfl))

instance instDecidableSliceOk (n : Nat) (d : Option Slice) : Decidable (SliceOk n d) :=
  match d with
  | none => isTrue (fun _ hs => Option.noConfusion hs)
  | some s =>
    if hle : s.ptr + s.len ≤ n then isTrue (fun _ hs => Option.some.inj hs ▸ hle)
    else isFalse (fun hall => hle (hall s rfl))

/-- Every pointer of the inner transaction is allocated in `h`. -/
def Heap.okLegacy (h : Heap) (tx : LegacyTx) : Prop :=
  PtrOk h.nInts tx.GasPrice ∧ PtrOk h.nAddrs tx.To ∧ PtrOk h.nInts tx.Value ∧
  SliceOk h.nBytes tx.Data ∧ PtrOk h.nInts tx.V ∧ PtrOk h.nInts tx.R ∧ PtrOk h.nInts tx.S

/-- Every pointer of the envelope is allocated in `h`. -/
def Heap.ok (h : Heap) (tx : FeeDelegateLegacyTx) : Prop :=
  h.okLegacy tx.SenderTx ∧ PtrOk h.nInts tx.MaxFeeLimit ∧ PtrOk h.nAddrs tx.FeePayer ∧
  PtrOk h.nInts tx.FV ∧ PtrOk h.nInts tx.FR ∧ PtrOk h.nInts tx.FS

instance instDecidableOkLegacy (h : Heap) (tx : LegacyTx) : Decidable (h.okLegacy tx) := by
  unfold Heap.okLegacy; infer_instance

instance instDecidableOk (h : Heap) (tx : FeeDelegateLegacyTx) : Decidable (h.ok tx) := by
  unfold Heap.ok; infer_instance

/-! ## In-place mutation

The writes a holder of a transaction can make through its pointers without
reassigning a field: overwrite a payload byte, overwrite an address, give a number
a new value (`Set`, `Add`, `SetUint64`, … all end with the cell holding some
integer). -/

/-- Overwrite the number behind `p`; through `nil` this is a nil dereference. -/
def writeInt (h : Heap) (p : Option Nat) (n : Int) : Option Heap :=
  p.map fun q => h.setInt q n

/-- Overwrite the address behind `p`; through `nil` this is a nil dereference. -/
def writeAddr (h : Heap) (p : Option Nat) (a : Nat) : Option Heap :=
  p.map fun q => h.setAddr q a

/-- The assignment `d[i] = b`; out of range (or on the nil slice) it panics. -/
def writeByte (h : Heap) (d : Option Slice) (i b : Nat) : Option Heap :=
  match d with
  | none => none
  | some s => if i < s.len then some (h.setByte (s.ptr + i) b) else none

/-- An in-place mutation of the payload bytes, of an address or of a number of the
inner transaction or of the payer signature. -/
inductive Mut where
  | data (i b : Nat)
  | to_ (a : Nat)
  | feePayer (a : Nat)
  | value (n : Int)
  | gasPrice (n : Int)
  | v (n : Int)
  | r (n : Int)
  | s (n : Int)
  | fv (n : Int)
  | fr (n : Int)
  | fs (n : Int)
  deriving DecidableEq, Repr

/-- Run one in-place mutation through the pointers of `tx`. -/
def mutate (h : Heap) (tx : FeeDelegateLegacyTx) : Mut → Option Heap
  | .data i b => writeByte h tx.SenderTx.Data i b
  | .to_ a => writeAddr h tx.SenderTx.To a
  | .feePayer a => writeAddr h tx.FeePayer a
  | .value n => writeInt h tx.SenderTx.Value n
  | .gasPrice n => writeInt h tx.SenderTx.GasPrice n
  | .v n => writeInt h tx.SenderTx.V n
  | .r n => writeInt h tx.SenderTx.R n
  | .s n => writeInt h tx.SenderTx.S n
  | .fv n => writeInt h tx.FV n
  | .fr n => writeInt h tx.FR n
  | .fs n => writeInt h tx.FS n

/-- Run a sequence of in-place mutations through the pointers of `tx`. -/
def mutateAll (h : Heap) (tx : FeeDelegateLegacyTx) : List Mut → Option Heap
  | [] => some h
  | m :: ms => (mutate h tx m).bind fun h1 => mutateAll h1 tx ms

/-- An in-place mutation of the number behind `MaxFeeLimit`. -/
def mutateMaxFeeLimit (h : Heap) (tx : FeeDelegateLegacyTx) (n : Int) : Option Heap :=
  writeInt h tx.MaxFeeLimit n

/-! ## Vocabulary of the statements -/

/-- Zero-fill of the inner numbers: what `copyLegacyTx` makes of an absent number. -/
def LegacyView.zeroFill (v : LegacyView) : LegacyView :=
  { v with GasPrice := some (v.GasPrice.getD 0), Value := some (v.Value.getD 0),
           V := some (v.V.getD 0), R := some (v.R.getD 0), S := some (v.S.getD 0) }

/-- Zero-fill of the inner numbers and of the payer triple; `MaxFeeLimit` is left as
it is. -/
def TxView.zeroFill (v : TxView) : TxView :=
  { v with SenderTx := v.SenderTx.zeroFill, FV := some (v.FV.getD 0),
           FR := some (v.FR.getD 0), FS := some (v.FS.getD 0) }

/-- A pointer is `nil` or at or above `n`. -/
def PtrFrom (n : Nat) (p : Option Nat) : Prop := ∀ q, p = some q → n ≤ q

/-- A slice is nil or starts at or above `n`. -/
def SliceFrom (n : Nat) (d : Option Slice) : Prop := ∀ s, d = some s → n ≤ s.ptr

/-- What `copy` does, fact by fact: `H` and `C` are the heap and the envelope it
returns for the envelope `E` in heap `h`. -/
structure CopyFacts (h : Heap) (E : FeeDelegateLegacyTx) (H : Heap) (C : FeeDelegateLegacyTx) :
    Prop where
  ints : ∀ q < h.nInts, H.ints q = h.ints q
  addrs : ∀ q < h.nAddrs, H.addrs q = h.addrs q
  bytes : ∀ q < h.nBytes, H.bytes q = h.bytes q
  nInts : H.nInts = h.nInts + 8
  nonce : C.SenderTx.Nonce = E.SenderTx.Nonce
  gas : C.SenderTx.Gas = E.SenderTx.Gas
  mfl : C.MaxFeeLimit = E.MaxFeeLimit
  pValue : C.SenderTx.Value = some h.nInts
  pGasPrice : C.SenderTx.GasPrice = some (h.nInts + 1)
  pV : C.SenderTx.V = some (h.nInts + 2)
  pR : C.SenderTx.R = some (h.nInts + 3)
  pS : C.SenderTx.S = some (h.nInts + 4)
  pFV : C.FV = some (h.nInts + 5)
  pFR : C.FR = some (h.nInts + 6)
  pFS : C.FS = some (h.nInts + 7)
  vValue : H.ints h.nInts = (h.int E.SenderTx.Value).getD 0
  vGasPrice : H.ints (h.nInts + 1) = (h.int E.SenderTx.GasPrice).getD 0
  vV : H.ints (h.nInts + 2) = (h.int E.SenderTx.V).getD 0
  vR : H.ints (h.nInts + 3) = (h.int E.SenderTx.R).getD 0
  vS : H.ints (h.nInts + 4) = (h.int E.SenderTx.S).getD 0
  vFV : H.ints (h.nInts + 5) = (h.int E.FV).getD 0
  vFR : H.ints (h.nInts + 6) = (h.int E.FR).getD 0
  vFS : H.ints (h.nInts + 7) = (h.int E.FS).getD 0
  toFrom : PtrFrom h.nAddrs C.SenderTx.To
  toOk : PtrOk H.nAddrs C.SenderTx.To
  toVal : H.addr C.SenderTx.To = h.addr E.SenderTx.To
  fpFrom : PtrFrom h.nAddrs C.FeePayer
  fpOk : PtrOk H.nAddrs C.FeePayer
  fpVal : H.addr C.FeePayer = h.addr E.FeePayer
  dataFrom : SliceFrom h.nBytes C.SenderTx.Data
  dataOk : SliceOk H.nBytes C.SenderTx.Data
  dataVal : H.slice C.SenderTx.Data = h.slice E.SenderTx.Data

/-- Heap `g'` holds what `g` holds in every cell below the counters `n`, `a`, `b`. -/
def AgreeBelow (n a b : Nat) (g g' : Heap) : Prop :=
  (∀ q < n, g'.ints q = g.ints q) ∧ (∀ q < a, g'.addrs q = g.addrs q) ∧
  (∀ q < b, g'.bytes q = g.bytes q)

/-- Heap `g'` holds what `g` holds in every cell at or above the counters `n`, `a`,
`b`. -/
def AgreeFrom (n a b : Nat) (g g' : Heap) : Prop :=
  (∀ q, n ≤ q → g'.ints q = g.ints q) ∧ (∀ q, a ≤ q → g'.addrs q = g.addrs q) ∧
  (∀ q, b ≤ q → g'.bytes q = g.bytes q)

/-- The payload, the two addresses, the inner numbers and the payer triple of `tx`
(every pointer but `MaxFeeLimit`) lie at or above the counters `n`, `a`, `b`. -/
def FreshFrom (n a b : Nat) (tx : FeeDelegateLegacyTx) : Prop :=
  PtrFrom n tx.SenderTx.GasPrice ∧ PtrFrom a tx.SenderTx.To ∧ PtrFrom n tx.SenderTx.Value ∧
  SliceFrom b tx.SenderTx.Data ∧ PtrFrom n tx.SenderTx.V ∧ PtrFrom n tx.SenderTx.R ∧
  PtrFrom n tx.SenderTx.S ∧ PtrFrom a tx.FeePayer ∧ PtrFrom n tx.FV ∧ PtrFrom n tx.FR ∧
  PtrFrom n tx.FS

/-! ## Concrete inputs -/

/-- An inner transaction with every pointer `nil`, nonce and gas limit zero. -/
def LegacyTx.blank : LegacyTx :=
  { Nonce := 0, GasPrice := none, Gas := 0, To := none, Value := none, Data := none,
    V := none, R := none, S := none }

/-- A fresh envelope, `&FeeDelegateLegacyTx{}`. -/
def FeeDelegateLegacyTx.blank : FeeDelegateLegacyTx :=
  { SenderTx := LegacyTx.blank, MaxFeeLimit := none, FeePayer := none, FV := none,
    FR := none, FS := none }

/-- A heap holding the single number `5`. -/
def heapFive : Heap :=
  { Heap.empty with ints := fun q => if q = 0 then 5 else 0, nInts := 1 }

/-- An envelope whose `MaxFeeLimit` is the number at cell `0`. -/
def limitTx : FeeDelegateLegacyTx :=
  { FeeDelegateLegacyTx.blank with MaxFeeLimit := some 0 }

/-- An envelope whose `SenderTx.GasPrice` and `MaxFeeLimit` are one and the same
`*big.Int`, the number at cell `0`. -/
def sharedLimitTx : FeeDelegateLegacyTx :=
  { FeeDelegateLegacyTx.blank with
    SenderTx := { LegacyTx.blank with GasPrice := some 0 }, MaxFeeLimit := some 0 }

/-- The heap of scenario A: the numbers `1000`, `5`, `27`, `0xAA`, `0xBB`, then the
payer triple `28`, `0xCC`, `0xDD` of scenario B, one address and a two-byte payload. -/
def scenarioHeap : Heap :=
  { ints := fun q =>
      if q = 0 then 1000 else if q = 1 then 5 else if q = 2 then 27 else if q = 3 then 0xAA
      else if q = 4 then 0xBB else if q = 5 then 28 else if q = 6 then 0xCC
      else if q = 7 then 0xDD else 0,
    nInts := 8,
    addrs := fun q => if q = 0 then 0xABCD else 0,
    nAddrs := 1,
    bytes := fun q => if q = 0 then 0xCA else if q = 1 then 0xFE else 0,
    nBytes := 2 }

/-- The inner transaction of scenario A: nonce 1, value 1000, gas price 5, sender
triple `(27, 0xAA, 0xBB)`. -/
def scenarioTx : LegacyTx :=
  { Nonce := 1, GasPrice := some 1, Gas := 21000, To := some 0, Value := some 0,
    Data := some ⟨0, 2⟩, V := some 2, R := some 3, S := some 4 }

/-- The envelope of scenario B: scenario A adopted into a fresh envelope, then the
payer triple set to the numbers `(28, 0xCC, 0xDD)`. -/
def scenarioEnvelope : FeeDelegateLegacyTx :=
  (FeeDelegateLegacyTx.blank.SetSenderTx scenarioTx).setSignatureValues none (some 5) (some 6)
    (some 7)

/-- Type tags for the concrete checks: any two different bytes will do. -/
def sampleTags : TypeTags :=
  { LegacyTxType := 0, FeeDelegateLegacyTxType := 1, distinct := by decide }

/-! # Lemmas -/

theorem setInt_self (h : Heap) (p : Nat) : h.setInt p (h.ints p) = h := by
  cases h
  simp only [Heap.setInt, Heap.mk.injEq, and_true, true_and]
  funext q
  split_ifs with hq
  · rw [hq]
  · rfl

theorem setIfPresent_some (h : Heap) (p : Nat) (x : Option Nat) :
    setIfPresent h (some p) x = some (h.setInt p ((h.int x).getD (h.ints p))) := by
  cases x with
  | none => simp [setIfPresent, Heap.int, setInt_self]
  | some q => simp [setIfPresent, bigSet, Heap.int]

@[simp]
theorem newInt_snd (h : Heap) : (newInt h).2 = some h.nInts := rfl
@[simp]
theorem newInt_nInts (h : Heap) : (newInt h).1.nInts = h.nInts + 1 := rfl
@[simp]
theorem newInt_ints (h : Heap) (q : Nat) :
    (newInt h).1.ints q = if q = h.nInts then 0 else h.ints q := rfl
@[simp]
theorem newInt_addrs (h : Heap) : (newInt h).1.addrs = h.addrs := rfl
@[simp]
theorem newInt_nAddrs (h : Heap) : (newInt h).1.nAddrs = h.nAddrs := rfl
@[simp]
theorem newInt_bytes (h : Heap) : (newInt h).1.bytes = h.bytes := rfl
@[simp]
theorem newInt_nBytes (h : Heap) : (newInt h).1.nBytes = h.nBytes := rfl
@[simp]
theorem setInt_nInts (h : Heap) (p : Nat) (v : Int) : (h.setInt p v).nInts = h.nInts := rfl
@[simp]
theorem setInt_ints (h : Heap) (p : Nat) (v : Int) (q : Nat) :
    (h.setInt p v).ints q = if q = p then v else h.ints q := rfl
@[simp]
theorem setInt_addrs (h : Heap) (p : Nat) (v : Int) : (h.setInt p v).addrs = h.addrs := rfl
@[simp]
theorem setInt_nAddrs (h : Heap) (p : Nat) (v : Int) : (h.setInt p v).nAddrs = h.nAddrs := rfl
@[simp]
theorem setInt_bytes (h : Heap) (p : Nat) (v : Int) : (h.setInt p v).bytes = h.bytes := rfl
@[simp]
theorem setInt_nBytes (h : Heap) (p : Nat) (v : Int) : (h.setInt p v).nBytes = h.nBytes := rfl
@[simp]
theorem copyAddressPtr_ints (h : Heap) (a : Option Nat) :
    (copyAddressPtr h a).1.ints = h.ints := by cases a <;> rfl
@[simp]
theorem copyAddressPtr_nInts (h : Heap) (a : Option Nat) :
    (copyAddressPtr h a).1.nInts = h.nInts := by cases a <;> rfl
@[simp]
theorem copyAddressPtr_bytes (h : Heap) (a : Option Nat) :
    (copyAddressPtr h a).1.bytes = h.bytes := by cases a <;> rfl
@[simp]
theorem copyAddressPtr_nBytes (h : Heap) (a : Option Nat) :
    (copyAddressPtr h a).1.nBytes = h.nBytes := by cases a <;> rfl
@[simp]
theorem CopyBytes_ints (h : Heap) (a : Option Slice) :
    (CopyBytes h a).1.ints = h.ints := by cases a <;> rfl
@[simp]
theorem CopyBytes_nInts (h : Heap) (a : Option Slice) :
    (CopyBytes h a).1.nInts = h.nInts := by cases a <;> rfl
@[simp]
theorem CopyBytes_addrs (h : Heap) (a : Option Slice) :
    (CopyBytes h a).1.addrs = h.addrs := by cases a <;> rfl
@[simp]
theorem CopyBytes_nAddrs (h : Heap) (a : Option Slice) :
    (CopyBytes h a).1.nAddrs = h.nAddrs := by cases a <;> rfl

theorem below_ne (n v : Nat) (hv : v < n) :
    v ≠ n ∧ v ≠ n + 1 ∧ v ≠ n + 2 ∧ v ≠ n + 3 ∧ v ≠ n + 4 ∧ v ≠ n + 5 ∧ v ≠ n + 6 ∧
      v ≠ n + 7 := by
  omega

theorem setIfPresent_fresh (h g : Heap) (p : Nat) (x : Option Nat) (hx : PtrOk h.nInts x)
    (hinv : ∀ q < h.nInts, g.ints q = h.ints q) (hz : g.ints p = 0) :
    setIfPresent g (some p) x = some (g.setInt p ((h.int x).getD 0)) := by
  rw [setIfPresent_some]
  cases x with
  | none => simp [Heap.int, hz]
  | some q => simp [Heap.int, hinv q (hx q rfl)]

theorem copy_facts (h : Heap) (E : FeeDelegateLegacyTx) (hok : h.ok E) :
    ∃ H C, FeeDelegateLegacyTx.copy h E = some (H, C) ∧ CopyFacts h E H C := by
  obtain ⟨⟨hGP, hTo, hVal, hData, hV, hR, hS⟩, hMfl, hFp, hFV, hFR, hFS⟩ := hok
  simp only [FeeDelegateLegacyTx.copy, FeeDelegateLegacyTx.copyLegacyTx,
    newInt_snd, Option.bind_eq_bind, Option.some_bind, Option.pure_def]
  rw [setIfPresent_fresh h _ _ _ hVal (fun q hq => by simp_arith [below_ne h.nInts q hq])
    (by simp_arith)]
  simp only [Option.some_bind]
  rw [setIfPresent_fresh h _ _ _ hGP (fun q hq => by simp_arith [below_ne h.nInts q hq])
    (by simp_arith)]
  simp only [Option.some_bind]
  rw [setIfPresent_fresh h _ _ _ hV (fun q hq => by simp_arith [below_ne h.nInts q hq])
    (by simp_arith)]
  simp only [Option.some_bind]
  rw [setIfPresent_fresh h _ _ _ hR (fun q hq => by simp_arith [below_ne h.nInts q hq])
    (by simp_arith)]
  simp only [Option.some_bind]
  rw [setIfPresent_fresh h _ _ _ hS (fun q hq => by simp_arith [below_ne h.nInts q hq])
    (by simp_arith)]
  simp only [Option.some_bind, newInt_snd]
  rw [setIfPresent_fresh h _ _ _ hFV (fun q hq => by simp_arith [below_ne h.nInts q hq])
    (by simp_arith)]
  simp only [Option.some_bind]
  rw [setIfPresent_fresh h _ _ _ hFR (fun q hq => by simp_arith [below_ne h.nInts q hq])
    (by simp_arith)]
  simp only [Option.some_bind]
  rw [setIfPresent_fresh h _ _ _ hFS (fun q hq => by simp_arith [below_ne h.nInts q hq])
    (by simp_arith)]
  simp only [Option.some_bind]
  refine ⟨_, _, rfl, ?_⟩
  refine
    { ints := ?_, addrs := ?_, bytes := ?_, nInts := ?_, nonce := rfl, gas := rfl, mfl := rfl,
      pValue := ?_, pGasPrice := ?_, pV := ?_, pR := ?_, pS := ?_, pFV := ?_, pFR := ?_,
      pFS := ?_, vValue := ?_, vGasPrice := ?_, vV := ?_, vR := ?_, vS := ?_, vFV := ?_,
      vFR := ?_, vFS := ?_, toFrom := ?_, toOk := ?_, toVal := ?_, fpFrom := ?_, fpOk := ?_,
      fpVal := ?_, dataFrom := ?_, dataOk := ?_, dataVal := ?_ }
  · intro q hq
    simp_arith [below_ne h.nInts q hq]
  · intro q hq
    cases hto : E.SenderTx.To <;> cases hfp : E.FeePayer <;>
      simp [copyAddressPtr, Nat.ne_of_lt hq, show q ≠ h.nAddrs + 1 by omega]
  · intro q hq
    cases hd : E.SenderTx.Data <;> simp [CopyBytes, Nat.not_le_of_lt hq]
  · simp
  · simp_arith
  · simp_arith
  · simp_arith
  · simp_arith
  · simp_arith
  · simp_arith
  · simp_arith
  · simp_arith
  · simp_arith
  · simp_arith
  · simp_arith
  · simp_arith
  · simp_arith
  · simp_arith
  · simp_arith
  · simp_arith
  · intro q hq
    cases hto : E.SenderTx.To <;> simp_all [copyAddressPtr]
  · intro q hq
    cases hto : E.SenderTx.To <;> cases hfp : E.FeePayer <;> simp_all [copyAddressPtr]
    omega
  · cases hto : E.SenderTx.To <;> cases hfp : E.FeePayer <;> simp [copyAddressPtr, Heap.addr]
  · intro q hq
    cases hto : E.SenderTx.To <;> cases hfp : E.FeePayer <;> simp_all [copyAddressPtr]
    omega
  · intro q hq
    cases hto : E.SenderTx.To <;> cases hfp : E.FeePayer <;> simp_all [copyAddressPtr]
  · cases hto : E.SenderTx.To <;> cases hfp : E.FeePayer with
    | none => simp [copyAddressPtr, Heap.addr]
    | some f => simp [copyAddressPtr, Heap.addr, Nat.ne_of_lt (hFp f hfp)]
  · intro s hs
    cases hd : E.SenderTx.Data with
    | none => simp [hd, CopyBytes] at hs
    | some d =>
      simp only [hd, CopyBytes, Option.some.injEq] at hs
      subst hs
      simp
  · intro s hs
    cases hd : E.SenderTx.Data with
    | none => simp [hd, CopyBytes] at hs
    | some d =>
      simp only [hd, CopyBytes, Option.some.injEq] at hs
      subst hs
      simp [CopyBytes]
  · cases hd : E.SenderTx.Data with
    | none => simp [CopyBytes, Heap.slice]
    | some d =>
      simp only [CopyBytes, Heap.slice, Option.map_some', Heap.readSlice, Option.some.injEq]
      apply List.map_congr_left
      intro i hi
      have hi' : i < d.len := List.mem_range.mp hi
      simp [hi']

/-! ## Reading through unchanged cells -/

theorem int_agree_below {n : Nat} {g g' : Heap} {p : Option Nat} (hp : PtrOk n p)
    (hag : ∀ q < n, g'.ints q = g.ints q) : g'.int p = g.int p := by
  cases p with
  | none => rfl
  | some q => simp [Heap.int, hag q (hp q rfl)]

theorem addr_agree_below {n : Nat} {g g' : Heap} {p : Option Nat} (hp : PtrOk n p)
    (hag : ∀ q < n, g'.addrs q = g.addrs q) : g'.addr p = g.addr p := by
  cases p with
  | none => rfl
  | some q => simp [Heap.addr, hag q (hp q rfl)]

theorem slice_agree_below {n : Nat} {g g' : Heap} {d : Option Slice} (hd : SliceOk n d)
    (hag : ∀ q < n, g'.bytes q = g.bytes q) : g'.slice d = g.slice d := by
  cases d with
  | none => rfl
  | some s =>
    simp only [Heap.slice, Option.map_some', Heap.readSlice, Option.some.injEq]
    apply List.map_congr_left
    intro i hi
    have hi' : i < s.len := List.mem_range.mp hi
    have hs := hd s rfl
    exact hag _ (by omega)

theorem int_agree_from {n : Nat} {g g' : Heap} {p : Option Nat} (hp : PtrFrom n p)
    (hag : ∀ q, n ≤ q → g'.ints q = g.ints q) : g'.int p = g.int p := by
  cases p with
  | none => rfl
  | some q => simp [Heap.int, hag q (hp q rfl)]

theorem addr_agree_from {n : Nat} {g g' : Heap} {p : Option Nat} (hp : PtrFrom n p)
    (hag : ∀ q, n ≤ q → g'.addrs q = g.addrs q) : g'.addr p = g.addr p := by
  cases p with
  | none => rfl
  | some q => simp [Heap.addr, hag q (hp q rfl)]

theorem slice_agree_from {n : Nat} {g g' : Heap} {d : Option Slice} (hd : SliceFrom n d)
    (hag : ∀ q, n ≤ q → g'.bytes q = g.bytes q) : g'.slice d = g.slice d := by
  cases d with
  | none => rfl
  | some s =>
    simp only [Heap.slice, Option.map_some', Heap.readSlice, Option.some.injEq]
    apply List.map_congr_left
    intro i _
    have hs := hd s rfl
    exact hag _ (by omega)

/-- An envelope allocated in `h` looks the same in any two heaps that agree below the
counters of `h`. -/
theorem view_agree_below {h g g' : Heap} {E : FeeDelegateLegacyTx} (hok : h.ok E)
    (hag : AgreeBelow h.nInts h.nAddrs h.nBytes g g') : g'.view E = g.view E := by
  obtain ⟨⟨hGP, hTo, hVal, hData, hV, hR, hS⟩, hMfl, hFp, hFV, hFR, hFS⟩ := hok
  obtain ⟨hi, ha, hb⟩ := hag
  simp only [Heap.view, Heap.viewLegacy, int_agree_below hGP hi, int_agree_below hVal hi,
    int_agree_below hV hi, int_agree_below hR hi, int_agree_below hS hi,
    int_agree_below hMfl hi, int_agree_below hFV hi, int_agree_below hFR hi,
    int_agree_below hFS hi, addr_agree_below hTo ha, addr_agree_below hFp ha,
    slice_agree_below hData hb]

theorem agreeBelow_refl (n a b : Nat) (g : Heap) : AgreeBelow n a b g g :=
  ⟨fun _ _ => rfl, fun _ _ => rfl, fun _ _ => rfl⟩

theorem agreeBelow_trans {n a b : Nat} {g1 g2 g3 : Heap} (h12 : AgreeBelow n a b g1 g2)
    (h23 : AgreeBelow n a b g2 g3) : AgreeBelow n a b g1 g3 :=
  ⟨fun q hq => (h23.1 q hq).trans (h12.1 q hq),
   fun q hq => (h23.2.1 q hq).trans (h12.2.1 q hq),
   fun q hq => (h23.2.2 q hq).trans (h12.2.2 q hq)⟩

theorem agreeFrom_refl (n a b : Nat) (g : Heap) : AgreeFrom n a b g g :=
  ⟨fun _ _ => rfl, fun _ _ => rfl, fun _ _ => rfl⟩

theorem agreeFrom_trans {n a b : Nat} {g1 g2 g3 : Heap} (h12 : AgreeFrom n a b g1 g2)
    (h23 : AgreeFrom n a b g2 g3) : AgreeFrom n a b g1 g3 :=
  ⟨fun q hq => (h23.1 q hq).trans (h12.1 q hq),
   fun q hq => (h23.2.1 q hq).trans (h12.2.1 q hq),
   fun q hq => (h23.2.2 q hq).trans (h12.2.2 q hq)⟩

/-! ## What an in-place write can reach -/

theorem writeInt_agreeBelow {n a b : Nat} {g g' : Heap} {p : Option Nat} {v : Int}
    (hp : PtrFrom n p) (hw : writeInt g p v = some g') : AgreeBelow n a b g g' := by
  cases p with
  | none => simp [writeInt] at hw
  | some c =>
    simp only [writeInt, Option.map_some', Option.some.injEq] at hw
    subst hw
    have hc := hp c rfl
    refine ⟨fun q hq => ?_, fun _ _ => rfl, fun _ _ => rfl⟩
    simp [show q ≠ c by omega]

theorem writeAddr_agreeBelow {n a b : Nat} {g g' : Heap} {p : Option Nat} {v : Nat}
    (hp : PtrFrom a p) (hw : writeAddr g p v = some g') : AgreeBelow n a b g g' := by
  cases p with
  | none => simp [writeAddr] at hw
  | some c =>
    simp only [writeAddr, Option.map_some', Option.some.injEq] at hw
    subst hw
    have hc := hp c rfl
    refine ⟨fun _ _ => rfl, fun q hq => ?_, fun _ _ => rfl⟩
    simp [Heap.setAddr, show q ≠ c by omega]

theorem writeByte_agreeBelow {n a b : Nat} {g g' : Heap} {d : Option Slice} {i v : Nat}
    (hd : SliceFrom b d) (hw : writeByte g d i v = some g') : AgreeBelow n a b g g' := by
  cases d with
  | none => simp [writeByte] at hw
  | some s =>
    simp only [writeByte] at hw
    split_ifs at hw with hi
    simp only [Option.some.injEq] at hw
    subst hw
    have hs := hd s rfl
    refine ⟨fun _ _ => rfl, fun _ _ => rfl, fun q hq => ?_⟩
    simp [Heap.setByte, show q ≠ s.ptr + i by omega]

theorem writeInt_agreeFrom {n a b : Nat} {g g' : Heap} {p : Option Nat} {v : Int}
    (hp : PtrOk n p) (hw : writeInt g p v = some g') : AgreeFrom n a b g g' := by
  cases p with
  | none => simp [writeInt] at hw
  | some c =>
    simp only [writeInt, Option.map_some', Option.some.injEq] at hw
    subst hw
    have hc := hp c rfl
    refine ⟨fun q hq => ?_, fun _ _ => rfl, fun _ _ => rfl⟩
    simp [show q ≠ c by omega]

theorem writeAddr_agreeFrom {n a b : Nat} {g g' : Heap} {p : Option Nat} {v : Nat}
    (hp : PtrOk a p) (hw : writeAddr g p v = some g') : AgreeFrom n a b g g' := by
  cases p with
  | none => simp [writeAddr] at hw
  | some c =>
    simp only [writeAddr, Option.map_some', Option.some.injEq] at hw
    subst hw
    have hc := hp c rfl
    refine ⟨fun _ _ => rfl, fun q hq => ?_, fun _ _ => rfl⟩
    simp [Heap.setAddr, show q ≠ c by omega]

theorem writeByte_agreeFrom {n a b : Nat} {g g' : Heap} {d : Option Slice} {i v : Nat}
    (hd : SliceOk b d) (hw : writeByte g d i v = some g') : AgreeFrom n a b g g' := by
  cases d with
  | none => simp [writeByte] at hw
  | some s =>
    simp only [writeByte] at hw
    split_ifs at hw with hi
    simp only [Option.some.injEq] at hw
    subst hw
    have hs := hd s rfl
    refine ⟨fun _ _ => rfl, fun _ _ => rfl, fun q hq => ?_⟩
    simp [Heap.setByte, show q ≠ s.ptr + i by omega]

/-- A write through a pointer of `C` that lies at or above the counters leaves the
cells below them alone. -/
theorem mutate_agreeBelow {n a b : Nat} {g g' : Heap} {C : FeeDelegateLegacyTx} {m : Mut}
    (hC : FreshFrom n a b C) (hm : mutate g C m = some g') : AgreeBelow n a b g g' := by
  obtain ⟨hGP, hTo, hVal, hData, hV, hR, hS, hFp, hFV, hFR, hFS⟩ := hC
  cases m with
  | data i v => exact writeByte_agreeBelow hData hm
  | to_ v => exact writeAddr_agreeBelow hTo hm
  | feePayer v => exact writeAddr_agreeBelow hFp hm
  | value v => exact writeInt_agreeBelow hVal hm
  | gasPrice v => exact writeInt_agreeBelow hGP hm
  | v v => exact writeInt_agreeBelow hV hm
  | r v => exact writeInt_agreeBelow hR hm
  | s v => exact writeInt_agreeBelow hS hm
  | fv v => exact writeInt_agreeBelow hFV hm
  | fr v => exact writeInt_agreeBelow hFR hm
  | fs v => exact writeInt_agreeBelow hFS hm

theorem mutateAll_agreeBelow {n a b : Nat} {C : FeeDelegateLegacyTx} (hC : FreshFrom n a b C)
    (ms : List Mut) : ∀ g g', mutateAll g C ms = some g' → AgreeBelow n a b g g' := by
  induction ms with
  | nil =>
    intro g g' hm
    simp only [mutateAll, Option.some.injEq] at hm
    subst hm
    exact agreeBelow_refl n a b g
  | cons m ms ih =>
    intro g g' hm
    simp only [mutateAll] at hm
    cases h1 : mutate g C m with
    | none => simp [h1] at hm
    | some g1 =>
      rw [h1] at hm
      exact agreeBelow_trans (mutate_agreeBelow hC h1) (ih g1 g' hm)

/-- A write through a pointer of `E` that is allocated in `h` leaves the cells at or
above the counters of `h` alone. -/
theorem mutate_agreeFrom {h g g' : Heap} {E : FeeDelegateLegacyTx} {m : Mut} (hok : h.ok E)
    (hm : mutate g E m = some g') : AgreeFrom h.nInts h.nAddrs h.nBytes g g' := by
  obtain ⟨⟨hGP, hTo, hVal, hData, hV, hR, hS⟩, _, hFp, hFV, hFR, hFS⟩ := hok
  cases m with
  | data i v => exact writeByte_agreeFrom hData hm
  | to_ v => exact writeAddr_agreeFrom hTo hm
  | feePayer v => exact writeAddr_agreeFrom hFp hm
  | value v => exact writeInt_agreeFrom hVal hm
  | gasPrice v => exact writeInt_agreeFrom hGP hm
  | v v => exact writeInt_agreeFrom hV hm
  | r v => exact writeInt_agreeFrom hR hm
  | s v => exact writeInt_agreeFrom hS hm
  | fv v => exact writeInt_agreeFrom hFV hm
  | fr v => exact writeInt_agreeFrom hFR hm
  | fs v => exact writeInt_agreeFrom hFS hm

theorem mutateAll_agreeFrom {h : Heap} {E : FeeDelegateLegacyTx} (hok : h.ok E)
    (ms : List Mut) :
    ∀ g g', mutateAll g E ms = some g' → AgreeFrom h.nInts h.nAddrs h.nBytes g g' := by
  induction ms with
  | nil =>
    intro g g' hm
    simp only [mutateAll, Option.some.injEq] at hm
    subst hm
    exact agreeFrom_refl _ _ _ g
  | cons m ms ih =>
    intro g g' hm
    simp only [mutateAll] at hm
    cases h1 : mutate g E m with
    | none => simp [h1] at hm
    | some g1 =>
      rw [h1] at hm
      exact agreeFrom_trans (mutate_agreeFrom hok h1) (ih g1 g' hm)

/-! ## Consequences of `copy_facts` -/

theorem copyFacts_agreeBelow {h H : Heap} {E C : FeeDelegateLegacyTx} (hf : CopyFacts h E H C) :
    AgreeBelow h.nInts h.nAddrs h.nBytes h H :=
  ⟨hf.ints, hf.addrs, hf.bytes⟩

theorem copyFacts_freshFrom {h H : Heap} {E C : FeeDelegateLegacyTx} (hf : CopyFacts h E H C) :
    FreshFrom h.nInts h.nAddrs h.nBytes C := by
  refine ⟨?_, hf.toFrom, ?_, hf.dataFrom, ?_, ?_, ?_, hf.fpFrom, ?_, ?_, ?_⟩
  · intro q hq; rw [hf.pGasPrice] at hq; cases hq; omega
  · intro q hq; rw [hf.pValue] at hq; cases hq; omega
  · intro q hq; rw [hf.pV] at hq; cases hq; omega
  · intro q hq; rw [hf.pR] at hq; cases hq; omega
  · intro q hq; rw [hf.pS] at hq; cases hq; omega
  · intro q hq; rw [hf.pFV] at hq; cases hq; omega
  · intro q hq; rw [hf.pFR] at hq; cases hq; omega
  · intro q hq; rw [hf.pFS] at hq; cases hq; omega

/-- The copy, observed in the heap `copy` returns, is the source observed before the
call with its absent numbers (other than `MaxFeeLimit`) replaced by zero. -/
theorem copyFacts_view {h H : Heap} {E C : FeeDelegateLegacyTx} (hok : h.ok E)
    (hf : CopyFacts h E H C) : H.view C = (h.view E).zeroFill := by
  have hm : H.int C.MaxFeeLimit = h.int E.MaxFeeLimit := by
    rw [hf.mfl]; exact int_agree_below hok.2.1 hf.ints
  simp only [Heap.view, Heap.viewLegacy, TxView.zeroFill, LegacyView.zeroFill, hm, hf.toVal,
    hf.fpVal, hf.dataVal, hf.nonce, hf.gas]
  simp only [hf.pValue, hf.pGasPrice, hf.pV, hf.pR, hf.pS, hf.pFV, hf.pFR, hf.pFS, Heap.int,
    Option.map_some', hf.vValue, hf.vGasPrice, hf.vV, hf.vR, hf.vS, hf.vFV, hf.vFR, hf.vFS]

/-- Every field of `C` but `MaxFeeLimit` looks the same in two heaps that agree at or
above the counters, when the pointers of `C` lie there. -/
theorem view_agree_from {n a b : Nat} {g g' : Heap} {C : FeeDelegateLegacyTx}
    (hC : FreshFrom n a b C) (hag : AgreeFrom n a b g g') :
    (g'.view C).SenderTx = (g.view C).SenderTx ∧ (g'.view C).FeePayer = (g.view C).FeePayer ∧
      (g'.view C).FV = (g.view C).FV ∧ (g'.view C).FR = (g.view C).FR ∧
      (g'.view C).FS = (g.view C).FS := by
  obtain ⟨hGP, hTo, hVal, hData, hV, hR, hS, hFp, hFV, hFR, hFS⟩ := hC
  obtain ⟨hi, ha, hb⟩ := hag
  simp only [Heap.view, Heap.viewLegacy, int_agree_from hGP hi, int_agree_from hVal hi,
    int_agree_from hV hi, int_agree_from hR hi, int_agree_from hS hi, int_agree_from hFV hi,
    int_agree_from hFR hi, int_agree_from hFS hi, addr_agree_from hTo ha,
    addr_agree_from hFp ha, slice_agree_from hData hb, and_self]

/-- Copy independence, from the copy to the source: `copy` leaves the source as it
was, and so does any sequence of in-place writes through the payload, the addresses,
the inner numbers and the payer triple of the copy. -/
theorem copy_writes_to_copy_miss_source (h : Heap) (E : FeeDelegateLegacyTx) (hok : h.ok E) :
    ∃ H C, FeeDelegateLegacyTx.copy h E = some (H, C) ∧ H.view E = h.view E ∧
      ∀ ms H2, mutateAll H C ms = some H2 → H2.view E = H.view E := by
  obtain ⟨H, C, hcopy, hf⟩ := copy_facts h E hok
  refine ⟨H, C, hcopy, view_agree_below hok (copyFacts_agreeBelow hf), fun ms H2 hm => ?_⟩
  exact view_agree_below hok (mutateAll_agreeBelow (copyFacts_freshFrom hf) ms H H2 hm)

/-- Copy independence, from the source to the copy, for every field of the copy but
`MaxFeeLimit`: a sequence of in-place writes through the payload, the addresses, the
inner numbers and the payer triple of the source leaves them as they were. -/
theorem copy_writes_to_source_miss_copy (h : Heap) (E : FeeDelegateLegacyTx) (hok : h.ok E) :
    ∃ H C, FeeDelegateLegacyTx.copy h E = some (H, C) ∧
      ∀ ms H2, mutateAll H E ms = some H2 →
        (H2.view C).SenderTx = (H.view C).SenderTx ∧
        (H2.view C).FeePayer = (H.view C).FeePayer ∧ (H2.view C).FV = (H.view C).FV ∧
        (H2.view C).FR = (H.view C).FR ∧ (H2.view C).FS = (H.view C).FS := by
  obtain ⟨H, C, hcopy, hf⟩ := copy_facts h E hok
  exact ⟨H, C, hcopy, fun ms H2 hm =>
    view_agree_from (copyFacts_freshFrom hf) (mutateAll_agreeFrom hok ms H H2 hm)⟩

/-- The `MaxFeeLimit` of a copy is the pointer of its source: whatever value is
written in place into the `MaxFeeLimit` number of the copy is what `maxfeelimit()` of
the source shows afterwards. -/
theorem copy_maxFeeLimit_shared (h : Heap) (E : FeeDelegateLegacyTx) (hok : h.ok E) (p : Nat)
    (hp : E.MaxFeeLimit = some p) (n : Int) :
    ∃ H C H2, FeeDelegateLegacyTx.copy h E = some (H, C) ∧ C.maxfeelimit = E.maxfeelimit ∧
      mutateMaxFeeLimit H C n = some H2 ∧ H2.int E.maxfeelimit = some n := by
  obtain ⟨H, C, hcopy, hf⟩ := copy_facts h E hok
  refine ⟨H, C, H.setInt p n, hcopy, hf.mfl, ?_, ?_⟩
  · simp [mutateMaxFeeLimit, writeInt, hf.mfl, hp]
  · simp [FeeDelegateLegacyTx.maxfeelimit, hp, Heap.int]

/-! # The claims -/

/-- C1 (copy independence for payload, addresses and signatures), at an input where it
fails: in `sharedLimitTx` the inner gas price and `MaxFeeLimit` are the same number,
`5`.  `copy` gives the copy a gas price of its own but hands it the `MaxFeeLimit`
pointer of the source, so giving the gas price of the source the value `99` in place
changes what `maxfeelimit()` of the copy shows from `5` to `99`. -/
theorem copy_sees_write_to_source_gasPrice :
    heapFive.ok sharedLimitTx ∧
    ((FeeDelegateLegacyTx.copy heapFive sharedLimitTx).bind fun r =>
      (mutate r.1 sharedLimitTx (Mut.gasPrice 99)).map fun H2 =>
        (r.1.int r.2.maxfeelimit, H2.int r.2.maxfeelimit, r.1.int r.2.gasPrice,
          H2.int r.2.gasPrice)) = some (some 5, some 99, some 5, some 5) := by
  decide

/-- C2 (copy() copies maxFeeLimit by value), at an input where it fails: the copy of
`limitTx` holds the `MaxFeeLimit` pointer of its source, so giving the `MaxFeeLimit`
number of the copy the value `99` in place changes what `maxfeelimit()` of the source
shows from `5` to `99`. -/
theorem copy_shares_maxFeeLimit_number :
    heapFive.ok limitTx ∧
    ((FeeDelegateLegacyTx.copy heapFive limitTx).bind fun r =>
      (mutateMaxFeeLimit r.1 r.2 99).map fun H2 =>
        (r.2.maxfeelimit, r.1.int limitTx.maxfeelimit, H2.int limitTx.maxfeelimit))
      = some (limitTx.maxfeelimit, some 5, some 99) := by
  decide

/-- C3 (zero-fill on absent payer signature): for an envelope `E` allocated in `h`,
`copy` returns, and each component of `rawFeePayerSignatureValues()` of the copy is
present, equal to the component of `E` when that is present and to `0` when it is
absent; for `E` with the payer triple never set the copy reports `(0, 0, 0)`. -/
theorem copy_payer_signature_zero_filled (h : Heap) (E : FeeDelegateLegacyTx) (hok : h.ok E) :
    (∃ H C, FeeDelegateLegacyTx.copy h E = some (H, C) ∧
      H.triple C.rawFeePayerSignatureValues =
        (some ((h.int E.FV).getD 0), some ((h.int E.FR).getD 0), some ((h.int E.FS).getD 0))) ∧
    (∃ H C, FeeDelegateLegacyTx.copy h { E with FV := none, FR := none, FS := none }
        = some (H, C) ∧
      H.triple C.rawFeePayerSignatureValues = (some 0, some 0, some 0)) := by
  have key : ∀ E : FeeDelegateLegacyTx, h.ok E →
      ∃ H C, FeeDelegateLegacyTx.copy h E = some (H, C) ∧
        H.triple C.rawFeePayerSignatureValues =
          (some ((h.int E.FV).getD 0), some ((h.int E.FR).getD 0),
            some ((h.int E.FS).getD 0)) := by
    intro E hok
    obtain ⟨H, C, hcopy, hf⟩ := copy_facts h E hok
    refine ⟨H, C, hcopy, ?_⟩
    simp only [Heap.triple, FeeDelegateLegacyTx.rawFeePayerSignatureValues, hf.pFV, hf.pFR,
      hf.pFS, Heap.int, Option.map_some', hf.vFV, hf.vFR, hf.vFS]
  refine ⟨key E hok, ?_⟩
  have hok' : h.ok { E with FV := none, FR := none, FS := none } := by
    obtain ⟨hS, hMfl, hFp, _, _, _⟩ := hok
    exact ⟨hS, hMfl, hFp, fun _ hq => Option.noConfusion hq, fun _ hq => Option.noConfusion hq,
      fun _ hq => Option.noConfusion hq⟩
  exact key _ hok'

/-- C3 at the envelope of scenario B: the copy reports the payer triple
`(28, 0xCC, 0xDD)`, and with the triple unset `(0, 0, 0)`. -/
theorem copy_payer_signature_zero_filled_witness :
    scenarioHeap.ok scenarioEnvelope ∧
    ((∃ H C, FeeDelegateLegacyTx.copy scenarioHeap scenarioEnvelope = some (H, C) ∧
      H.triple C.rawFeePayerSignatureValues = (some 28, some 0xCC, some 0xDD)) ∧
    (∃ H C, FeeDelegateLegacyTx.copy scenarioHeap
        { scenarioEnvelope with FV := none, FR := none, FS := none } = some (H, C) ∧
      H.triple C.rawFeePayerSignatureValues = (some 0, some 0, some 0))) :=
  ⟨by decide, copy_payer_signature_zero_filled scenarioHeap scenarioEnvelope (by decide)⟩

/-- C4 (copy() preserves content): for an envelope `E` allocated in `h`, `copy`
returns a copy with the nonce and gas limit of `E`, the same recipient, payload and
fee payer (same value, or absent in both), the same `MaxFeeLimit` value, and each of
the inner `Value`, `GasPrice`, `V`, `R`, `S` present and equal to the number of `E`,
or to `0` where `E` has none. -/
theorem copy_preserves_content (h : Heap) (E : FeeDelegateLegacyTx) (hok : h.ok E) :
    ∃ H C, FeeDelegateLegacyTx.copy h E = some (H, C) ∧
      C.nonce = E.nonce ∧ C.gas = E.gas ∧ H.addr C.to_ = h.addr E.to_ ∧
      H.slice C.data = h.slice E.data ∧ H.addr C.feePayer = h.addr E.feePayer ∧
      H.int C.maxfeelimit = h.int E.maxfeelimit ∧
      H.int C.value = some ((h.int E.SenderTx.Value).getD 0) ∧
      H.int C.gasPrice = some ((h.int E.SenderTx.GasPrice).getD 0) ∧
      H.triple C.rawSignatureValues =
        (some ((h.int E.SenderTx.V).getD 0), some ((h.int E.SenderTx.R).getD 0),
          some ((h.int E.SenderTx.S).getD 0)) := by
  obtain ⟨H, C, hcopy, hf⟩ := copy_facts h E hok
  refine ⟨H, C, hcopy, hf.nonce, hf.gas, hf.toVal, hf.dataVal, hf.fpVal, ?_, ?_, ?_, ?_⟩
  · show H.int C.MaxFeeLimit = h.int E.MaxFeeLimit
    rw [hf.mfl]
    exact int_agree_below hok.2.1 hf.ints
  · show H.int C.SenderTx.Value = _
    simp only [hf.pValue, Heap.int, Option.map_some', hf.vValue]
  · show H.int C.SenderTx.GasPrice = _
    simp only [hf.pGasPrice, Heap.int, Option.map_some', hf.vGasPrice]
  · show (H.int C.SenderTx.V, H.int C.SenderTx.R, H.int C.SenderTx.S) = _
    simp only [hf.pV, hf.pR, hf.pS, Heap.int, Option.map_some', hf.vV, hf.vR, hf.vS]

/-- C4 at the envelope of scenario B. -/
theorem copy_preserves_content_witness :
    scenarioHeap.ok scenarioEnvelope ∧
    ∃ H C, FeeDelegateLegacyTx.copy scenarioHeap scenarioEnvelope = some (H, C) ∧
      C.nonce = 1 ∧ C.gas = 21000 ∧ H.addr C.to_ = some 0xABCD ∧
      H.slice C.data = some [0xCA, 0xFE] ∧ H.addr C.feePayer = none ∧
      H.int C.maxfeelimit = none ∧ H.int C.value = some 1000 ∧ H.int C.gasPrice = some 5 ∧
      H.triple C.rawSignatureValues = (some 27, some 0xAA, some 0xBB) :=
  ⟨by decide, copy_preserves_content scenarioHeap scenarioEnvelope (by decide)⟩

/-- C5 (adoption fidelity): after `E.SetSenderTx(T)` the accessors `nonce`, `to`,
`value`, `gas`, `gasPrice`, `data` and `rawSignatureValues` of `E` return what those
of `T` return, so in every heap the inner transaction of `E` shows the content of `T`;
with `T` the transaction of scenario A, `nonce()` is `1` and the sender triple reads
`(27, 0xAA, 0xBB)`, whatever `E` held before. -/
theorem SetSenderTx_adopts (E : FeeDelegateLegacyTx) (T : LegacyTx) :
    (E.SetSenderTx T).nonce = T.nonce ∧ (E.SetSenderTx T).to_ = T.to_ ∧
    (E.SetSenderTx T).value = T.value ∧ (E.SetSenderTx T).gas = T.gas ∧
    (E.SetSenderTx T).gasPrice = T.gasPrice ∧ (E.SetSenderTx T).data = T.data ∧
    (E.SetSenderTx T).rawSignatureValues = T.rawSignatureValues ∧
    (∀ h : Heap, h.viewLegacy (E.SetSenderTx T).SenderTx = h.viewLegacy T) ∧
    (E.SetSenderTx scenarioTx).nonce = 1 ∧
    scenarioHeap.int (E.SetSenderTx scenarioTx).value = some 1000 ∧
    scenarioHeap.int (E.SetSenderTx scenarioTx).gasPrice = some 5 ∧
    scenarioHeap.triple (E.SetSenderTx scenarioTx).rawSignatureValues
      = (some 27, some 0xAA, some 0xBB) :=
  ⟨rfl, rfl, rfl, rfl, rfl, rfl, rfl, fun _ => rfl, rfl, rfl, rfl, rfl⟩

/-- C6 (adoption is storage-independent), refuted: adopt the transaction of scenario A
into a fresh envelope; afterwards give the `Value` number of the transaction the value
`7` in place, and overwrite the first byte of its payload with `0`: `value()` of the
envelope then shows `7` instead of `1000`, and `data()` shows `[0x00, 0xFE]` instead
of `[0xCA, 0xFE]`. -/
theorem SetSenderTx_sees_writes_to_senderTx :
    ((writeInt scenarioHeap scenarioTx.value 7).map fun h2 =>
      (scenarioHeap.int (FeeDelegateLegacyTx.blank.SetSenderTx scenarioTx).value,
        h2.int (FeeDelegateLegacyTx.blank.SetSenderTx scenarioTx).value))
      = some (some 1000, some 7) ∧
    ((writeByte scenarioHeap scenarioTx.data 0 0).map fun h2 =>
      (scenarioHeap.slice (FeeDelegateLegacyTx.blank.SetSenderTx scenarioTx).data,
        h2.slice (FeeDelegateLegacyTx.blank.SetSenderTx scenarioTx).data))
      = some (some [0xCA, 0xFE], some [0x00, 0xFE]) := by
  decide

/-- C6 as amended: `SetSenderTx` stores the references of `T`.  After
`E.SetSenderTx(T)` the inner transaction of `E` is `T` field for field: nonce and gas
limit are copied by value, while `data()`, `to()`, `value()`, `gasPrice()` and
`rawSignatureValues()` of `E` return the very slice and pointers `T` holds, so in
every heap, also one reached by writing in place through `T`, the accessors of `E`
show what those of `T` show. -/
theorem SetSenderTx_shares_storage (E : FeeDelegateLegacyTx) (T : LegacyTx) :
    (E.SetSenderTx T).SenderTx = T ∧ (E.SetSenderTx T).data = T.data ∧
    (E.SetSenderTx T).to_ = T.to_ ∧ (E.SetSenderTx T).value = T.value ∧
    (E.SetSenderTx T).gasPrice = T.gasPrice ∧
    (E.SetSenderTx T).rawSignatureValues = T.rawSignatureValues ∧
    (∀ h : Heap,
      h.slice (E.SetSenderTx T).data = h.slice T.data ∧
      h.addr (E.SetSenderTx T).to_ = h.addr T.to_ ∧
      h.int (E.SetSenderTx T).value = h.int T.value ∧
      h.int (E.SetSenderTx T).gasPrice = h.int T.gasPrice ∧
      h.triple (E.SetSenderTx T).rawSignatureValues = h.triple T.rawSignatureValues) :=
  ⟨rfl, rfl, rfl, rfl, rfl, rfl, fun _ => ⟨rfl, rfl, rfl, rfl, rfl⟩⟩

/-- C7 (signature separation): `setSignatureValues` leaves `rawSignatureValues()`, the
whole inner transaction, `MaxFeeLimit` and `FeePayer` as they were, in every heap; in
scenario B the sender triple still reads `(27, 0xAA, 0xBB)` after the payer triple was
set. -/
theorem setSignatureValues_keeps_sender_side (E : FeeDelegateLegacyTx)
    (chainID v r s : Option Nat) :
    (E.setSignatureValues chainID v r s).rawSignatureValues = E.rawSignatureValues ∧
    (E.setSignatureValues chainID v r s).SenderTx = E.SenderTx ∧
    (E.setSignatureValues chainID v r s).MaxFeeLimit = E.MaxFeeLimit ∧
    (E.setSignatureValues chainID v r s).FeePayer = E.FeePayer ∧
    (∀ h : Heap,
      h.triple (E.setSignatureValues chainID v r s).rawSignatureValues
        = h.triple E.rawSignatureValues ∧
      h.viewLegacy (E.setSignatureValues chainID v r s).SenderTx = h.viewLegacy E.SenderTx ∧
      h.int (E.setSignatureValues chainID v r s).maxfeelimit = h.int E.maxfeelimit ∧
      h.addr (E.setSignatureValues chainID v r s).feePayer = h.addr E.feePayer) ∧
    scenarioHeap.triple scenarioEnvelope.rawSignatureValues = (some 27, some 0xAA, some 0xBB) ∧
    scenarioHeap.triple scenarioEnvelope.rawFeePayerSignatureValues
      = (some 28, some 0xCC, some 0xDD) :=
  ⟨rfl, rfl, rfl, rfl, fun _ => ⟨rfl, rfl, rfl, rfl⟩, rfl, rfl⟩

/-- C8 (setSignatureValues stores the payer triple): after
`setSignatureValues(chainID, v, r, s)` the accessor `rawFeePayerSignatureValues()`
returns exactly `(v, r, s)`, absent components included, and the envelope reached does
not depend on `chainID`. -/
theorem setSignatureValues_stores_payer_triple (E : FeeDelegateLegacyTx)
    (chainID chainID' v r s : Option Nat) :
    (E.setSignatureValues chainID v r s).rawFeePayerSignatureValues = (v, r, s) ∧
    E.setSignatureValues chainID v r s = E.setSignatureValues chainID' v r s :=
  ⟨rfl, rfl⟩

/-- C9 (delegation correctness): each of `chainID`, `accessList`, `data`, `gas`,
`gasFeeCap`, `gasPrice`, `value`, `nonce`, `to` and `rawSignatureValues` of an
envelope is the same accessor of `SenderTx`, and replacing `MaxFeeLimit`, `FeePayer`,
`FV`, `FR`, `FS` by anything changes none of them. -/
theorem accessors_delegate {χ α : Type} (ops : InnerOps χ α) (h : Heap)
    (E : FeeDelegateLegacyTx) (mfl fp fv fr fs : Option Nat) :
    (E.chainID ops h = ops.chainID h E.SenderTx ∧
      E.accessList ops h = ops.accessList h E.SenderTx ∧ E.data = E.SenderTx.data ∧
      E.gas = E.SenderTx.gas ∧ E.gasFeeCap ops h = ops.gasFeeCap h E.SenderTx ∧
      E.gasPrice = E.SenderTx.gasPrice ∧ E.value = E.SenderTx.value ∧
      E.nonce = E.SenderTx.nonce ∧ E.to_ = E.SenderTx.to_ ∧
      E.rawSignatureValues = E.SenderTx.rawSignatureValues) ∧
    (FeeDelegateLegacyTx.chainID ops h ⟨E.SenderTx, mfl, fp, fv, fr, fs⟩ = E.chainID ops h ∧
      FeeDelegateLegacyTx.accessList ops h ⟨E.SenderTx, mfl, fp, fv, fr, fs⟩
        = E.accessList ops h ∧
      FeeDelegateLegacyTx.data ⟨E.SenderTx, mfl, fp, fv, fr, fs⟩ = E.data ∧
      FeeDelegateLegacyTx.gas ⟨E.SenderTx, mfl, fp, fv, fr, fs⟩ = E.gas ∧
      FeeDelegateLegacyTx.gasFeeCap ops h ⟨E.SenderTx, mfl, fp, fv, fr, fs⟩
        = E.gasFeeCap ops h ∧
      FeeDelegateLegacyTx.gasPrice ⟨E.SenderTx, mfl, fp, fv, fr, fs⟩ = E.gasPrice ∧
      FeeDelegateLegacyTx.value ⟨E.SenderTx, mfl, fp, fv, fr, fs⟩ = E.value ∧
      FeeDelegateLegacyTx.nonce ⟨E.SenderTx, mfl, fp, fv, fr, fs⟩ = E.nonce ∧
      FeeDelegateLegacyTx.to_ ⟨E.SenderTx, mfl, fp, fv, fr, fs⟩ = E.to_ ∧
      FeeDelegateLegacyTx.rawSignatureValues ⟨E.SenderTx, mfl, fp, fv, fr, fs⟩
        = E.rawSignatureValues) :=
  ⟨⟨rfl, rfl, rfl, rfl, rfl, rfl, rfl, rfl, rfl, rfl⟩,
   ⟨rfl, rfl, rfl, rfl, rfl, rfl, rfl, rfl, rfl, rfl⟩⟩

/-! ## Totality of `copy` -/

/-- The five guarded `Set` calls of `copyLegacyTx` all have a freshly allocated
receiver: `copyLegacyTx` returns for every envelope, allocated or not. -/
theorem copyLegacyTx_total (h : Heap) (E : FeeDelegateLegacyTx) :
    ∃ H S, FeeDelegateLegacyTx.copyLegacyTx h E = some (H, S) := by
  simp only [FeeDelegateLegacyTx.copyLegacyTx, setIfPresent_some, newInt_snd,
    Option.bind_eq_bind, Option.some_bind, Option.pure_def]
  exact ⟨_, _, rfl⟩

/-- No failure branch of `copy` is reachable: it returns for every envelope. -/
theorem copy_total (h : Heap) (E : FeeDelegateLegacyTx) :
    ∃ H C, FeeDelegateLegacyTx.copy h E = some (H, C) := by
  simp only [FeeDelegateLegacyTx.copy, FeeDelegateLegacyTx.copyLegacyTx, setIfPresent_some,
    newInt_snd, Option.bind_eq_bind, Option.some_bind, Option.pure_def]
  exact ⟨_, _, rfl⟩

/-- The `MaxFeeLimit` field of a copy is the `MaxFeeLimit` field of its source,
`nil` included, for every envelope. -/
theorem copy_maxFeeLimit_pointer (h : Heap) (E : FeeDelegateLegacyTx) :
    ∃ H C, FeeDelegateLegacyTx.copy h E = some (H, C) ∧ C.maxfeelimit = E.maxfeelimit := by
  simp only [FeeDelegateLegacyTx.copy, FeeDelegateLegacyTx.copyLegacyTx, setIfPresent_some,
    newInt_snd, Option.bind_eq_bind, Option.some_bind, Option.pure_def]
  exact ⟨_, _, rfl, rfl⟩

/-- A copy of an allocated envelope is allocated in the heap `copy` returns. -/
theorem copyFacts_ok {h H : Heap} {E C : FeeDelegateLegacyTx} (hok : h.ok E)
    (hf : CopyFacts h E H C) : H.ok C := by
  have hn := hf.nInts
  refine ⟨⟨?_, hf.toOk, ?_, hf.dataOk, ?_, ?_, ?_⟩, ?_, hf.fpOk, ?_, ?_, ?_⟩
  · intro q hq; rw [hf.pGasPrice] at hq; cases hq; omega
  · intro q hq; rw [hf.pValue] at hq; cases hq; omega
  · intro q hq; rw [hf.pV] at hq; cases hq; omega
  · intro q hq; rw [hf.pR] at hq; cases hq; omega
  · intro q hq; rw [hf.pS] at hq; cases hq; omega
  · intro q hq
    rw [hf.mfl] at hq
    have := hok.2.1 q hq
    omega
  · intro q hq; rw [hf.pFV] at hq; cases hq; omega
  · intro q hq; rw [hf.pFR] at hq; cases hq; omega
  · intro q hq; rw [hf.pFS] at hq; cases hq; omega

theorem zeroFill_zeroFill (v : TxView) : v.zeroFill.zeroFill = v.zeroFill := rfl

/-! # The claims, continued -/

/-- C11 (unsigned envelope reports the zero payer triple), refuted: adopt the
transaction of scenario A into a fresh envelope; `rawFeePayerSignatureValues()`
returns the three `nil` pointers, which is not the triple `(0, 0, 0)`. -/
theorem fresh_envelope_payer_triple_is_nil :
    (FeeDelegateLegacyTx.blank.SetSenderTx scenarioTx).rawFeePayerSignatureValues
      = (none, none, none) ∧
    scenarioHeap.triple
        (FeeDelegateLegacyTx.blank.SetSenderTx scenarioTx).rawFeePayerSignatureValues
      ≠ (some 0, some 0, some 0) := by
  decide

/-- C11 as amended: for every inner transaction `T` allocated in `h`, a fresh envelope
on which `SetSenderTx(T)` is called returns the absent triple `(nil, nil, nil)` from
`rawFeePayerSignatureValues()`; the triple `(0, 0, 0)` is what a `copy()` of that
envelope returns. -/
theorem fresh_envelope_payer_triple (h : Heap) (T : LegacyTx) (hT : h.okLegacy T) :
    (FeeDelegateLegacyTx.blank.SetSenderTx T).rawFeePayerSignatureValues = (none, none, none) ∧
    h.triple (FeeDelegateLegacyTx.blank.SetSenderTx T).rawFeePayerSignatureValues
      = (none, none, none) ∧
    ∃ H C, FeeDelegateLegacyTx.copy h (FeeDelegateLegacyTx.blank.SetSenderTx T) = some (H, C) ∧
      H.triple C.rawFeePayerSignatureValues = (some 0, some 0, some 0) := by
  refine ⟨rfl, rfl, ?_⟩
  have hok : h.ok (FeeDelegateLegacyTx.blank.SetSenderTx T) :=
    ⟨hT, fun _ hq => Option.noConfusion hq, fun _ hq => Option.noConfusion hq,
      fun _ hq => Option.noConfusion hq, fun _ hq => Option.noConfusion hq,
      fun _ hq => Option.noConfusion hq⟩
  obtain ⟨H, C, hcopy, hf⟩ := copy_facts h _ hok
  refine ⟨H, C, hcopy, ?_⟩
  have hv := hf.vFV
  have hr := hf.vFR
  have hs := hf.vFS
  simp only [Heap.triple, FeeDelegateLegacyTx.rawFeePayerSignatureValues, hf.pFV, hf.pFR,
    hf.pFS, Heap.int, Option.map_some', hv, hr, hs]
  rfl

/-- C11 as amended, at the transaction of scenario A. -/
theorem fresh_envelope_payer_triple_witness :
    scenarioHeap.okLegacy scenarioTx ∧
    ((FeeDelegateLegacyTx.blank.SetSenderTx scenarioTx).rawFeePayerSignatureValues
        = (none, none, none) ∧
      scenarioHeap.triple
          (FeeDelegateLegacyTx.blank.SetSenderTx scenarioTx).rawFeePayerSignatureValues
        = (none, none, none) ∧
      ∃ H C, FeeDelegateLegacyTx.copy scenarioHeap
          (FeeDelegateLegacyTx.blank.SetSenderTx scenarioTx) = some (H, C) ∧
        H.triple C.rawFeePayerSignatureValues = (some 0, some 0, some 0)) :=
  ⟨by decide, fresh_envelope_payer_triple scenarioHeap scenarioTx (by decide)⟩

/-- C12 (absent maxFeeLimit collapses to zero on copy), at an input where it fails:
the copy of the fresh envelope has the payer triple zero-filled, `(0, 0, 0)`, but its
`maxfeelimit()` is the `nil` pointer of the source, not a number `0`. -/
theorem copy_leaves_absent_maxFeeLimit_nil :
    ((FeeDelegateLegacyTx.copy Heap.empty FeeDelegateLegacyTx.blank).map fun r =>
      (r.2.maxfeelimit, r.1.int r.2.maxfeelimit, r.1.triple r.2.rawFeePayerSignatureValues))
      = some (none, none, (some 0, some 0, some 0)) := by
  decide

/-- C13 (copy() and SetSenderTx are total): for every heap, envelope and inner
transaction, with any fields absent, `copyLegacyTx` and `copy` return (no `Set` is
reached with a `nil` receiver or argument), also on the envelope `SetSenderTx` leaves
and on the fresh envelope, and `SetSenderTx` ends with the inner transaction `T`. -/
theorem copy_and_SetSenderTx_total (h : Heap) (E : FeeDelegateLegacyTx) (T : LegacyTx) :
    (∃ H S, FeeDelegateLegacyTx.copyLegacyTx h E = some (H, S)) ∧
    (∃ H C, FeeDelegateLegacyTx.copy h E = some (H, C)) ∧
    (E.SetSenderTx T).SenderTx = T ∧
    (∃ H C, FeeDelegateLegacyTx.copy h (E.SetSenderTx T) = some (H, C)) ∧
    (∃ H C, FeeDelegateLegacyTx.copy h FeeDelegateLegacyTx.blank = some (H, C)) :=
  ⟨copyLegacyTx_total h E, copy_total h E, rfl, copy_total h _, copy_total h _⟩

/-- C14 (SetSenderTx does not sign): `SetSenderTx` leaves `maxfeelimit()`,
`feePayer()` and `rawFeePayerSignatureValues()` as they were, as pointers and so as
values in every heap; only `SenderTx` changes. -/
theorem SetSenderTx_keeps_payer_side (E : FeeDelegateLegacyTx) (T : LegacyTx) :
    (E.SetSenderTx T).maxfeelimit = E.maxfeelimit ∧
    (E.SetSenderTx T).feePayer = E.feePayer ∧
    (E.SetSenderTx T).rawFeePayerSignatureValues = E.rawFeePayerSignatureValues ∧
    E.SetSenderTx T = { E with SenderTx := T } ∧
    (∀ h : Heap,
      h.int (E.SetSenderTx T).maxfeelimit = h.int E.maxfeelimit ∧
      h.addr (E.SetSenderTx T).feePayer = h.addr E.feePayer ∧
      h.triple (E.SetSenderTx T).rawFeePayerSignatureValues
        = h.triple E.rawFeePayerSignatureValues) :=
  ⟨rfl, rfl, rfl, rfl, fun _ => ⟨rfl, rfl, rfl⟩⟩

/-- C15 (payer-specific accessors are not delegated and never fail): `maxfeelimit()`
and `feePayer()` return the fields `MaxFeeLimit` and `FeePayer` of the envelope,
whatever inner transaction `S` it embeds, and return `nil` when the field is `nil`. -/
theorem payer_accessors_read_own_fields (E : FeeDelegateLegacyTx) (S : LegacyTx) :
    E.maxfeelimit = E.MaxFeeLimit ∧ E.feePayer = E.FeePayer ∧
    FeeDelegateLegacyTx.maxfeelimit ⟨S, E.MaxFeeLimit, E.FeePayer, E.FV, E.FR, E.FS⟩
      = E.maxfeelimit ∧
    FeeDelegateLegacyTx.feePayer ⟨S, E.MaxFeeLimit, E.FeePayer, E.FV, E.FR, E.FS⟩
      = E.feePayer ∧
    FeeDelegateLegacyTx.maxfeelimit ⟨S, none, E.FeePayer, E.FV, E.FR, E.FS⟩ = none ∧
    FeeDelegateLegacyTx.feePayer ⟨S, E.MaxFeeLimit, none, E.FV, E.FR, E.FS⟩ = none :=
  ⟨rfl, rfl, rfl, rfl, rfl, rfl⟩

/-- C16 (fixed, distinct type tag): `txType()` is the constant
`FeeDelegateLegacyTxType` for every envelope, the same for any two envelopes, the
same after `SetSenderTx`, `setSignatureValues` and `copy`, and different from
`txType()` of the embedded `LegacyTx`. -/
theorem txType_fixed_and_distinct (tags : TypeTags) (h : Heap) (E E' : FeeDelegateLegacyTx)
    (T : LegacyTx) (chainID v r s : Option Nat) :
    E.txType tags = tags.FeeDelegateLegacyTxType ∧ E.txType tags = E'.txType tags ∧
    (E.SetSenderTx T).txType tags = E.txType tags ∧
    (E.setSignatureValues chainID v r s).txType tags = E.txType tags ∧
    (∃ H C, FeeDelegateLegacyTx.copy h E = some (H, C) ∧ C.txType tags = E.txType tags) ∧
    E.txType tags ≠ E.SenderTx.txType tags := by
  refine ⟨rfl, rfl, rfl, rfl, ?_, tags.distinct⟩
  obtain ⟨H, C, hcopy⟩ := copy_total h E
  exact ⟨H, C, hcopy, rfl⟩

/-- C17 (copy() is side-effect-free on its receiver): for an envelope `E` allocated in
`h`, `copy` returns, and in the heap it returns every field of `E` shows what it
showed before, absent where it was absent. -/
theorem copy_leaves_receiver (h : Heap) (E : FeeDelegateLegacyTx) (hok : h.ok E) :
    ∃ H C, FeeDelegateLegacyTx.copy h E = some (H, C) ∧ H.view E = h.view E := by
  obtain ⟨H, C, hcopy, hf⟩ := copy_facts h E hok
  exact ⟨H, C, hcopy, view_agree_below hok (copyFacts_agreeBelow hf)⟩

/-- C17 at scenario A adopted into a fresh envelope: after `copy` the payer triple,
`MaxFeeLimit` and `FeePayer` of the receiver are still absent. -/
theorem copy_leaves_receiver_witness :
    scenarioHeap.ok (FeeDelegateLegacyTx.blank.SetSenderTx scenarioTx) ∧
    ∃ H C, FeeDelegateLegacyTx.copy scenarioHeap
        (FeeDelegateLegacyTx.blank.SetSenderTx scenarioTx) = some (H, C) ∧
      H.view (FeeDelegateLegacyTx.blank.SetSenderTx scenarioTx) =
        { SenderTx :=
            { Nonce := 1, GasPrice := some 5, Gas := 21000, To := some 0xABCD,
              Value := some 1000, Data := some [0xCA, 0xFE], V := some 27, R := some 0xAA,
              S := some 0xBB },
          MaxFeeLimit := none, FeePayer := none, FV := none, FR := none, FS := none } :=
  ⟨by decide, copy_leaves_receiver scenarioHeap _ (by decide)⟩

/-- C18 (copy() normalises and is idempotent by value): for an envelope `E` allocated
in `h`, the copy `C` has `Value`, `GasPrice`, `V`, `R`, `S`, `FV`, `FR`, `FS` all
present, and copying `C` again returns an envelope that shows, field for field, what
`C` shows. -/
theorem copy_normalises_and_is_idempotent (h : Heap) (E : FeeDelegateLegacyTx)
    (hok : h.ok E) :
    ∃ H C, FeeDelegateLegacyTx.copy h E = some (H, C) ∧
      (C.SenderTx.Value ≠ none ∧ C.SenderTx.GasPrice ≠ none ∧ C.SenderTx.V ≠ none ∧
        C.SenderTx.R ≠ none ∧ C.SenderTx.S ≠ none ∧ C.FV ≠ none ∧ C.FR ≠ none ∧
        C.FS ≠ none) ∧
      ((H.view C).SenderTx.Value ≠ none ∧ (H.view C).SenderTx.GasPrice ≠ none ∧
        (H.view C).SenderTx.V ≠ none ∧ (H.view C).SenderTx.R ≠ none ∧
        (H.view C).SenderTx.S ≠ none ∧ (H.view C).FV ≠ none ∧ (H.view C).FR ≠ none ∧
        (H.view C).FS ≠ none) ∧
      ∃ H2 C2, FeeDelegateLegacyTx.copy H C = some (H2, C2) ∧ H2.view C2 = H.view C := by
  obtain ⟨H, C, hcopy, hf⟩ := copy_facts h E hok
  have hokC : H.ok C := copyFacts_ok hok hf
  have hview : H.view C = (h.view E).zeroFill := copyFacts_view hok hf
  obtain ⟨H2, C2, hcopy2, hf2⟩ := copy_facts H C hokC
  refine ⟨H, C, hcopy, ?_, ?_, H2, C2, hcopy2, ?_⟩
  · simp [hf.pValue, hf.pGasPrice, hf.pV, hf.pR, hf.pS, hf.pFV, hf.pFR, hf.pFS]
  · rw [hview]
    simp [TxView.zeroFill, LegacyView.zeroFill]
  · rw [copyFacts_view hokC hf2, hview, zeroFill_zeroFill]

/-- C18 at the envelope of scenario B. -/
theorem copy_normalises_and_is_idempotent_witness :
    scenarioHeap.ok scenarioEnvelope ∧
    ∃ H C, FeeDelegateLegacyTx.copy scenarioHeap scenarioEnvelope = some (H, C) ∧
      (C.SenderTx.Value ≠ none ∧ C.SenderTx.GasPrice ≠ none ∧ C.SenderTx.V ≠ none ∧
        C.SenderTx.R ≠ none ∧ C.SenderTx.S ≠ none ∧ C.FV ≠ none ∧ C.FR ≠ none ∧
        C.FS ≠ none) ∧
      ((H.view C).SenderTx.Value ≠ none ∧ (H.view C).SenderTx.GasPrice ≠ none ∧
        (H.view C).SenderTx.V ≠ none ∧ (H.view C).SenderTx.R ≠ none ∧
        (H.view C).SenderTx.S ≠ none ∧ (H.view C).FV ≠ none ∧ (H.view C).FR ≠ none ∧
        (H.view C).FS ≠ none) ∧
      ∃ H2 C2, FeeDelegateLegacyTx.copy H C = some (H2, C2) ∧ H2.view C2 = H.view C :=
  ⟨by decide, copy_normalises_and_is_idempotent scenarioHeap scenarioEnvelope (by decide)⟩

/-- C19 (getSenderTx() returns no transaction): `getSenderTx()` is `nil` for every
envelope, also right after `SetSenderTx(T)`, when it is not the embedded `T`. -/
theorem getSenderTx_is_nil (E : FeeDelegateLegacyTx) (T : LegacyTx) :
    E.getSenderTx = none ∧ (E.SetSenderTx T).getSenderTx = none ∧
    (E.SetSenderTx T).getSenderTx ≠ some (TxData.legacyTx T) ∧
    (E.SetSenderTx T).getSenderTx ≠ some (TxData.legacyTx (E.SetSenderTx T).SenderTx) :=
  ⟨rfl, rfl, fun hne => Option.noConfusion hne, fun hne => Option.noConfusion hne⟩

end FeeDelegate
